import Mathlib

/-!
Verification development for the Chronicling America news-sentiment pipeline
(`news_sentiment.py`). The Python source is shallowly embedded: the paginated
fetch loop (`_request_data`, `_request_again`, `_fulfilled_query`) becomes a
recursion over an explicit script of per-page transport outcomes, parameter
validation (`_valid_parameters`) becomes a function over a small dynamic value
type, dataset assembly (`_build_dataset`, via pandas) becomes an explicit
table builder over association-list items, and keyword-sentence extraction
(`_build_sentiment`'s regex) becomes a period-splitting matcher over character
lists.
-/

namespace NewsSentiment

/-! ### Pagination model

`_request_data` repeatedly sends GET requests and accumulates `items` from
each JSON page. We embed the transport as a script: for each page number, the
pair of outcomes the network would produce for the first attempt and for the
retry attempt. An outcome is either a received HTTP response (status code,
parsed JSON body, elapsed duration) or an exception raised by the send itself
(connection refused, timeout). -/

/-- JSON page body: `items`, `endIndex`, `totalItems`, as read by
`_request_data` from `request.json()`. Items are kept abstract in `α`. -/
structure Page (α : Type) where
  items : List α
  endIndex : Nat
  totalItems : Nat
  deriving Repr, DecidableEq

/-- An HTTP response as consumed by `_request_data`: its status code, parsed
body, and `request.elapsed.total_seconds()` (modelled as a rational). -/
structure Response (α : Type) where
  status : Nat
  body : Page α
  elapsed : Rat
  deriving DecidableEq

/-- Outcome of one `session.send(prepped)` call: either a response comes back,
or the send itself raises a network-level exception (connection refused,
timeout). -/
inductive SendOutcome (α : Type) where
  | resp (r : Response α)
  | netErr
  deriving DecidableEq

/-- The transport script for one page: first-attempt outcome and the outcome
the identical resent request would produce in `_request_again`. -/
abbrev PageFetch (α : Type) := SendOutcome α × SendOutcome α

/-- Mutable per-query state of the `ChroniclingAmerica` instance:
`request_time` (accumulated elapsed seconds), `request_size` (the
`(endIndex, totalItems)` pair of the most recent page; `None` models the
initial integer `0` placeholder set in `__init__`), and the total seconds
spent in `time.sleep` calls (instrumentation for the retry waits). -/
structure FetchStats where
  requestTime : Rat
  requestSize : Option (Nat × Nat)
  sleepSeconds : Nat
  deriving DecidableEq

/-- `__init__` sets `request_time = 0.0` and `request_size = 0` before any
request is issued. -/
def initStats : FetchStats := ⟨0, none, 0⟩

/-- Exceptions that can escape the fetch loop. `fetchError s` is the
`RuntimeError("HTTP <s> error after pause and second attempt...")` raised in
`_request_again`; `netException` is a network-level exception propagating out
of the un-guarded first `session.send`; `unboundLocal` is the
`UnboundLocalError` raised when `_request_again`'s bare `except` block reads
the never-assigned local `request` after the retry send itself raised. -/
inductive FetchException where
  | fetchError (status : Nat)
  | netException
  | unboundLocal
  deriving DecidableEq

/-- Result of running the fetch loop against a finite transport script:
`ok` (loop broke out with accumulated items), `err` (an exception propagated),
or `outOfScript` (the script was shorter than the number of requests the loop
makes — a modelling artifact, never reached for well-formed services). -/
inductive FetchOutcome (α : Type) where
  | ok (items : List α) (stats : FetchStats)
  | err (e : FetchException) (stats : FetchStats)
  | outOfScript
  deriving DecidableEq

/-- `requests.codes.ok`. -/
def httpOk : Nat := 200

/-- `_request_again`: after `time.sleep(60)` (accounted by the caller), resend
the identical request. If the send raises, the bare `except` block evaluates
`request.status_code` on the unassigned local `request`, raising
`UnboundLocalError`. If a response arrives, `raise_for_status()` raises for
status codes ≥ 400, which the `except` turns into the `RuntimeError` carrying
that response's status; otherwise the response is returned. -/
def requestAgain {α : Type} (retry : SendOutcome α) :
    Except FetchException (Response α) :=
  match retry with
  | .netErr => .error .unboundLocal
  | .resp r => if 400 ≤ r.status then .error (.fetchError r.status) else .ok r

/-- One page's send-and-maybe-retry, lines 129–134 of the source: the first
send is not guarded, so a network-level exception propagates; a response with
`status_code != requests.codes.ok` triggers `_request_again` (the second
component counts the `time.sleep(60)` calls performed). -/
def sendPage {α : Type} (pf : PageFetch α) :
    Except FetchException (Response α) × Nat :=
  match pf.1 with
  | .netErr => (.error .netException, 0)
  | .resp r => if r.status ≠ httpOk then (requestAgain pf.2, 1) else (.ok r, 0)

/-- `_fulfilled_query`: stop when the current page's `endIndex` equals
`totalItems` (last page) or `endIndex` has reached `results_max`. -/
def fulfilledQuery {α : Type} (results : Page α) (resultsMax : Nat) : Bool :=
  results.endIndex == results.totalItems || resultsMax ≤ results.endIndex

/-- The `while` loop of `_request_data`: for each page, send (with the single
retry policy of `sendPage`); on an exception, propagate it; on a response,
extend the accumulated items with the page's items, update `request_time`
and `request_size`, and break if `_fulfilled_query` holds, else continue with
the next page of the script. -/
def requestData {α : Type} (resultsMax : Nat) :
    List (PageFetch α) → List α → FetchStats → FetchOutcome α
  | [], _, _ => .outOfScript
  | pf :: rest, acc, stats =>
    match sendPage pf with
    | (.error e, slp) =>
        .err e { stats with sleepSeconds := stats.sleepSeconds + 60 * slp }
    | (.ok r, slp) =>
        let acc' := acc ++ r.body.items
        let stats' : FetchStats :=
          ⟨stats.requestTime + r.elapsed,
           some (r.body.endIndex, r.body.totalItems),
           stats.sleepSeconds + 60 * slp⟩
        if fulfilledQuery r.body resultsMax then .ok acc' stats'
        else requestData resultsMax rest acc' stats'

/-- A well-formed paginated service for a query with `total` matches, seen
from a cumulative count `prev`: each page's `endIndex` extends `prev` by the
page's item count, every page reports the same `totalItems = total`, and the
last page's `endIndex` is exactly `total`. -/
def wfPages {α : Type} (prev total : Nat) : List (Page α) → Bool
  | [] => false
  | [p] => p.endIndex == prev + p.items.length && p.totalItems == total &&
      p.endIndex == total
  | p :: q :: rest => p.endIndex == prev + p.items.length &&
      p.totalItems == total && wfPages p.endIndex total (q :: rest)

/-- Transport script of a service that answers every request successfully
(status 200) on the first attempt; durations are zero, the retry outcome is
irrelevant and never consulted. -/
def pureScript {α : Type} (ps : List (Page α)) : List (PageFetch α) :=
  ps.map fun p => (.resp ⟨httpOk, p, 0⟩, .netErr)

/-- Duration charged to `request_time` for one page of the script: the
elapsed seconds of the response the loop actually consumes (first attempt if
it returned status 200, otherwise the retry's response); a page that raises
contributes nothing because the exception propagates before the update. -/
def consumedElapsed {α : Type} (pf : PageFetch α) : Rat :=
  match (sendPage pf).1 with
  | .ok r => r.elapsed
  | .error _ => 0

/-! ### Parameter validation

`_valid_parameters` receives Python values whose runtime types it inspects
with `isinstance`; we embed the dynamic values as a small sum type. -/

/-- A Python value as far as `_valid_parameters` can distinguish one. -/
inductive PyVal where
  | int (n : Int)
  | str (s : String)
  | float (q : Rat)
  deriving DecidableEq

/-- `isinstance(v, str)`. -/
def PyVal.isStr : PyVal → Bool
  | .str _ => true
  | _ => false

/-- `isinstance(v, int)`. -/
def PyVal.isInt : PyVal → Bool
  | .int _ => true
  | _ => false

/-- A raised `TypeError`, carrying its message. -/
inductive PyError where
  | typeError (msg : String)
  deriving DecidableEq

/-- `_valid_parameters`: raise `TypeError` if some keyword is not a string;
raise `TypeError` if year_min is not an integer AND year_max is not an
integer (the source uses `and` between the two `not isinstance` checks);
otherwise return `True`. -/
def validParameters (keywords : List PyVal) (yearMin yearMax : PyVal) :
    Except PyError Bool :=
  if ¬ keywords.all PyVal.isStr then
    .error (.typeError "Keywords must be of type string.")
  else if ¬ yearMin.isInt ∧ ¬ yearMax.isInt then
    .error (.typeError "Years must be of type integer.")
  else .ok true

/-! ### Keyword-sentence extraction

`_build_sentiment` runs
`re.findall(r"(?<=\.)+[^\.]*(?:\bK1\b|\bK2\b|...).*?\.", text, re.I | re.S)`
per record. With a backtracking engine this pattern matches as follows: a
match can only start at a position preceded by a period (the repeated
zero-width lookbehind is equivalent to a single one); `[^\.]*` cannot cross a
period, so some keyword must occur — as a whole word, case-insensitively —
between that start and the next period; the lazy `.*?\.` then extends the
match exactly to that next period (a keyword occurrence never contains a
period, see `containsAny_append_dot`). Hence `findall` returns, in order,
every maximal period-free run that lies between two periods and contains a
keyword match, with the terminating period appended — the run before the
first period and a trailing run not ended by a period are never returned.
We embed this by splitting on `'.'` and filtering the interior runs. -/

/-- A word character for `\b` under `re` on ASCII text: `[A-Za-z0-9_]`. -/
def wordChar (c : Char) : Bool := c.isAlphanum || c == '_'

/-- Wordness of the character at position `p`; positions outside the run
default to `'.'` (the period delimiting the run in the full text), which is
not a word character. -/
def wordAt (s : List Char) (p : Nat) : Bool := wordChar (s.getD p '.')

/-- `\b` at position `p` of the run `s`: the wordness of the preceding
character (a period when `p = 0`) differs from the wordness at `p`. -/
def boundaryAt (s : List Char) (p : Nat) : Bool :=
  (decide (p ≠ 0) && wordAt s (p - 1)) != wordAt s p

/-- `\bkw\b` matches at position `i` of `s`, case-insensitively: the next
`kw.length` characters agree with `kw` after ASCII lowercasing, and both ends
sit on word boundaries. -/
def kwMatchAt (s kw : List Char) (i : Nat) : Bool :=
  ((s.drop i).take kw.length).map Char.toLower == kw.map Char.toLower &&
    boundaryAt s i && boundaryAt s (i + kw.length)

/-- The alternation `(?:\bK1\b|\bK2\b|...)` finds a match somewhere in the
run `s`. -/
def containsAnyKeyword (kws : List (List Char)) (s : List Char) : Bool :=
  kws.any fun kw => (List.range (s.length + 1)).any fun i => kwMatchAt s kw i

/-- `re.findall` of the keyword-sentence pattern over the full text: the
interior period-delimited runs (everything strictly between two periods)
that contain a whole-word case-insensitive keyword occurrence, each returned
with its terminating period. -/
def extractKeySentences (text : List Char) (kws : List (List Char)) :
    List (List Char) :=
  (((text.splitOn '.').drop 1).dropLast.filter (containsAnyKeyword kws)).map
    (· ++ ['.'])

/-- Modelled from the spec for comparison with the implementation: "a
sentence is any maximal run of characters ending in a period" — every
period-delimited run of the text together with its terminating period,
including the first. -/
def specSentences (text : List Char) : List (List Char) :=
  (text.splitOn '.').dropLast.map (· ++ ['.'])

/-- Modelled from the spec for comparison with the implementation: "a
sentence is selected if it contains, as a whole-word, case-insensitive
match, any of the query keywords". -/
def specSelectedSentences (kws : List (List Char)) (text : List Char) :
    List (List Char) :=
  (specSentences text).filter (containsAnyKeyword kws)

/-! ### Dataset assembly

`_build_dataset` feeds the accumulated JSON items to
`pd.DataFrame.from_dict(..., orient="columns")`, selects the fixed column
list, and converts the `date` column with `pd.to_datetime`. We embed an item
as an association list of column name to string value, and model the pandas
behavior this code path exercises: the frame's columns are the union of the
items' keys and an item lacking a key that others have gets a missing value
(`NaN`); selecting a column absent from the union raises (`KeyError`, the
spec's `SchemaError`); `to_datetime` maps missing values to `NaT` and raises
on an unparseable string (the spec's `DateParseError`). -/

/-- One raw JSON item: column name to string value. -/
abbrev RawItem := List (String × List Char)

/-- A cell of the assembled frame: a string, or pandas' missing value. -/
inductive Cell where
  | str (s : List Char)
  | nan
  deriving DecidableEq

/-- The fixed column selection of `_build_dataset`. -/
def requiredColumns : List String :=
  ["date", "state", "county", "city", "title", "ocr_eng"]

/-- The assembled frame's column set: the union of the items' keys (only
membership is consulted downstream, at the column selection). -/
def colUnion (items : List RawItem) : List String :=
  (items.map (fun it => it.map Prod.fst)).flatten

/-- Cell of one item at one column: its value, or `NaN` when the item lacks
the key. -/
def getCell (it : RawItem) (c : String) : Cell :=
  match it.lookup c with
  | some v => .str v
  | none => .nan

/-- A calendar date (the payload of a parsed `datetime64` entry). -/
structure CalDate where
  year : Nat
  month : Nat
  day : Nat
  deriving DecidableEq

/-- Modelled from the behavior of `pandas.to_datetime` on the string shapes
this pipeline meets, restricted to ISO `YYYY-MM-DD`: ten characters, digits
in the date positions, dashes between, month in 1..12 and day in 1..31;
anything else fails to parse. -/
def parseDate (v : List Char) : Option CalDate :=
  match v with
  | [y1, y2, y3, y4, '-', m1, m2, '-', d1, d2] =>
    if ([y1, y2, y3, y4, m1, m2, d1, d2]).all Char.isDigit then
      let nat2 := fun a b : Char => (a.toNat - 48) * 10 + (b.toNat - 48)
      let mm := nat2 m1 m2
      let dd := nat2 d1 d2
      if 1 ≤ mm ∧ mm ≤ 12 ∧ 1 ≤ dd ∧ dd ≤ 31 then
        some ⟨nat2 y1 y2 * 100 + nat2 y3 y4, mm, dd⟩
      else none
    else none
  | _ => none

/-- Errors of dataset assembly: the `KeyError` from selecting an absent
column (the spec's `SchemaError`), and the `to_datetime` failure on an
unparseable date string (the spec's `DateParseError`), carrying it. -/
inductive DataError where
  | schemaError
  | dateParseError (v : List Char)
  deriving DecidableEq

/-- One row of the assembled frame after column selection and date
conversion: `date` is the parsed calendar date or `NaT`. -/
structure NewsRow where
  date : Option CalDate
  state : Cell
  county : Cell
  city : Cell
  title : Cell
  ocrEng : Cell
  deriving DecidableEq

/-- Assemble one row: select the fixed columns and convert the date cell
(`NaN` becomes `NaT`; an unparseable string raises). -/
def rowOf (it : RawItem) : Except DataError NewsRow :=
  match getCell it "date" with
  | .nan => .ok ⟨none, getCell it "state", getCell it "county",
      getCell it "city", getCell it "title", getCell it "ocr_eng"⟩
  | .str v =>
    match parseDate v with
    | some d => .ok ⟨some d, getCell it "state", getCell it "county",
        getCell it "city", getCell it "title", getCell it "ocr_eng"⟩
    | none => .error (.dateParseError v)

/-- Assemble all rows in order, stopping at the first date failure. -/
def rowsOf : List RawItem → Except DataError (List NewsRow)
  | [] => .ok []
  | it :: rest =>
    match rowOf it with
    | .error e => .error e
    | .ok r =>
      match rowsOf rest with
      | .error e => .error e
      | .ok rs => .ok (r :: rs)

/-- `_build_dataset` after the fetch: selecting `COLUMNS` raises when a
required column is absent from the union of the items' keys; otherwise the
rows are assembled and the date column converted. -/
def buildDataset (items : List RawItem) : Except DataError (List NewsRow) :=
  if requiredColumns.all fun c => (colUnion items).contains c then
    rowsOf items
  else .error .schemaError

/-! ### Sentiment enrichment

`_build_sentiment` adds `key_sentences`, `polarity` and `subjectivity`
columns row by row. The scorer (`TextBlob(...).sentiment`) is an external
capability; it enters as a function parameter. -/

/-- A row enriched with its extracted sentences and sentiment score. -/
structure EnrichedRow where
  row : NewsRow
  keySentences : List (List Char)
  polarity : Rat
  subjectivity : Rat
  deriving DecidableEq

/-- `str()` applied to the `ocr_eng` cell: a missing value prints as
`"nan"`. -/
def strOfCell : Cell → List Char
  | .str s => s
  | .nan => "nan".toList

/-- `_build_sentiment`: per row, extract the keyword sentences from the
`ocr_eng` text, join them with the literal two-character separator `\n`
(the source joins on the raw string `r"\n"`), score the joined text, and
attach the results. `score` models the external `TextBlob(...).sentiment`. -/
def buildSentiment (score : List Char → Rat × Rat) (kws : List (List Char))
    (rows : List NewsRow) : List EnrichedRow :=
  rows.map fun row =>
    let ks := extractKeySentences (strOfCell row.ocrEng) kws
    let sent := score (List.intercalate ['\\', 'n'] ks)
    ⟨row, ks, sent.1, sent.2⟩

/-- A fully populated raw item as the service returns it. -/
def itemFull : RawItem :=
  [("date", "1900-01-01".toList), ("state", "IL".toList),
   ("county", "Cook".toList), ("city", "Chicago".toList),
   ("title", "T".toList), ("ocr_eng", "x.".toList)]

/-- The same item without its `date` key. -/
def itemNoDate : RawItem :=
  [("state", "IL".toList), ("county", "Cook".toList),
   ("city", "Chicago".toList), ("title", "T".toList),
   ("ocr_eng", "y.".toList)]

/-- The same item with an unparseable date string. -/
def itemBadDate : RawItem :=
  [("date", "not-a-date".toList), ("state", "IL".toList),
   ("county", "Cook".toList), ("city", "Chicago".toList),
   ("title", "T".toList), ("ocr_eng", "x.".toList)]

/-- The assembled row of `itemFull`. -/
def rowFull : NewsRow :=
  ⟨some ⟨1900, 1, 1⟩, .str "IL".toList, .str "Cook".toList,
   .str "Chicago".toList, .str "T".toList, .str "x.".toList⟩

/-- The assembled row of `itemNoDate` when other items supply the column:
its date cell is the missing value `NaT`. -/
def rowNoDate : NewsRow :=
  ⟨none, .str "IL".toList, .str "Cook".toList, .str "Chicago".toList,
   .str "T".toList, .str "y.".toList⟩

/-- Evaluation of one loop iteration when the first attempt answers with
status 200: the page's items are appended and the stats updated before the
stop check. -/
theorem requestData_cons_ok {α : Type} (mx : Nat) (p : Page α) (d : Rat)
    (a2 : SendOutcome α) (rest : List (PageFetch α)) (acc : List α)
    (stats : FetchStats) :
    requestData mx ((SendOutcome.resp ⟨httpOk, p, d⟩, a2) :: rest) acc stats =
      if fulfilledQuery p mx then
        .ok (acc ++ p.items)
          ⟨stats.requestTime + d, some (p.endIndex, p.totalItems),
           stats.sleepSeconds⟩
      else
        requestData mx rest (acc ++ p.items)
          ⟨stats.requestTime + d, some (p.endIndex, p.totalItems),
           stats.sleepSeconds⟩ := by
  simp [requestData, sendPage]

/-- Main induction for the soft-stop property: against a well-formed service
the loop returns successfully, the accumulated item count equals the final
page's `endIndex`, and that `endIndex` is `total` or has reached the cap. -/
theorem requestData_wf {α : Type} (total mx : Nat) :
    ∀ (ps : List (Page α)) (prev : Nat) (acc : List α) (stats : FetchStats),
      wfPages prev total ps = true → acc.length = prev →
      ∃ (items : List α) (e : Nat) (stats' : FetchStats),
        requestData mx (pureScript ps) acc stats = .ok items stats' ∧
        stats'.requestSize = some (e, total) ∧ items.length = e ∧
        (e = total ∨ mx ≤ e) := by
  intro ps
  induction ps with
  | nil => intro prev acc stats hwf _; simp [wfPages] at hwf
  | cons p tail ih =>
    intro prev acc stats hwf hlen
    cases tail with
    | nil =>
      simp only [wfPages, Bool.and_eq_true, beq_iff_eq] at hwf
      obtain ⟨⟨h1, h2⟩, h3⟩ := hwf
      have hful : fulfilledQuery p mx = true := by
        simp [fulfilledQuery, h3, h2]
      refine ⟨acc ++ p.items, p.endIndex,
        ⟨stats.requestTime + 0, some (p.endIndex, p.totalItems),
         stats.sleepSeconds⟩, ?_, ?_, ?_, Or.inl h3⟩
      · rw [show pureScript [p] =
              [(SendOutcome.resp ⟨httpOk, p, 0⟩, SendOutcome.netErr)] from rfl,
            requestData_cons_ok, if_pos hful]
      · simpa using h2
      · simp [h1, hlen]
    | cons q rest =>
      simp only [wfPages, Bool.and_eq_true, beq_iff_eq] at hwf
      obtain ⟨⟨h1, h2⟩, htail⟩ := hwf
      have hstep : pureScript (p :: q :: rest) =
          ((SendOutcome.resp ⟨httpOk, p, 0⟩ : SendOutcome α),
            SendOutcome.netErr) ::
            pureScript (q :: rest) := rfl
      by_cases hful : fulfilledQuery p mx = true
      · refine ⟨acc ++ p.items, p.endIndex,
          ⟨stats.requestTime + 0, some (p.endIndex, p.totalItems),
           stats.sleepSeconds⟩, ?_, ?_, ?_, ?_⟩
        · rw [hstep, requestData_cons_ok, if_pos hful]
        · simpa using h2
        · simp [h1, hlen]
        · simp only [fulfilledQuery, Bool.or_eq_true, beq_iff_eq,
            decide_eq_true_eq] at hful
          rcases hful with h | h
          · exact Or.inl (h2 ▸ h)
          · exact Or.inr h
      · have hlen' : (acc ++ p.items).length = p.endIndex := by
          simp [h1, hlen]
        obtain ⟨items, e, stats', hrun, hsz, hln, hcap⟩ :=
          ih p.endIndex (acc ++ p.items)
            ⟨stats.requestTime + 0, some (p.endIndex, p.totalItems),
             stats.sleepSeconds⟩ htail hlen'
        refine ⟨items, e, stats', ?_, hsz, hln, hcap⟩
        rw [hstep, requestData_cons_ok, if_neg hful]
        exact hrun

/-- C1: against a well-formed paginated service the fetch loop terminates
successfully; the page that triggers the stop is appended in full before the
check, so the accumulated item count equals the final page's `endIndex` and
is ≥ min(total_items, results_max), and that final `endIndex` equals
`total_items` or is ≥ `results_max`. -/
theorem fetch_soft_stop {α : Type} (total mx : Nat) (ps : List (Page α))
    (hwf : wfPages 0 total ps = true) :
    ∃ (items : List α) (e : Nat) (stats' : FetchStats),
      requestData mx (pureScript ps) [] initStats = .ok items stats' ∧
      stats'.requestSize = some (e, total) ∧ items.length = e ∧
      (e = total ∨ mx ≤ e) ∧ min total mx ≤ items.length := by
  obtain ⟨items, e, stats', hrun, hsz, hln, hcap⟩ :=
    requestData_wf total mx ps 0 [] initStats hwf rfl
  refine ⟨items, e, stats', hrun, hsz, hln, hcap, ?_⟩
  rcases hcap with h | h
  · exact hln ▸ h ▸ Nat.min_le_left _ _
  · exact le_trans (Nat.min_le_right _ _) (hln ▸ h)

/-- Witness for C1: a two-page service with 3 total items fetched under a cap
of 10. -/
theorem fetch_soft_stop_witness :
    ∃ (items : List Nat) (e : Nat) (stats' : FetchStats),
      requestData 10
        (pureScript [⟨[1, 2], 2, 3⟩, ⟨[3], 3, 3⟩]) [] initStats =
        .ok items stats' ∧
      stats'.requestSize = some (e, 3) ∧ items.length = e ∧
      (e = 3 ∨ 10 ≤ e) ∧ min 3 10 ≤ items.length :=
  fetch_soft_stop 3 10 [⟨[1, 2], 2, 3⟩, ⟨[3], 3, 3⟩] (by decide)

/-- C2: a page whose first response bears an error status is retried exactly
once after a single 60-second sleep; if the retry's response is accepted by
`raise_for_status` its page's items are appended and fetching continues
(stop check as usual), and if the retry also bears an error status the whole
fetch fails with the `RuntimeError` carrying the retry's HTTP status — no
further pages of the script are consulted and no items are returned. -/
theorem retry_once_policy {α : Type} (mx s1 s2 : Nat) (p1 p2 : Page α)
    (d1 d2 : Rat) (rest : List (PageFetch α)) (acc : List α)
    (stats : FetchStats) (hfail : 400 ≤ s1) :
    (s2 < 400 →
      requestData mx
          ((SendOutcome.resp ⟨s1, p1, d1⟩, SendOutcome.resp ⟨s2, p2, d2⟩) ::
            rest) acc stats =
        if fulfilledQuery p2 mx then
          .ok (acc ++ p2.items)
            ⟨stats.requestTime + d2, some (p2.endIndex, p2.totalItems),
             stats.sleepSeconds + 60⟩
        else
          requestData mx rest (acc ++ p2.items)
            ⟨stats.requestTime + d2, some (p2.endIndex, p2.totalItems),
             stats.sleepSeconds + 60⟩) ∧
    (400 ≤ s2 →
      requestData mx
          ((SendOutcome.resp ⟨s1, p1, d1⟩, SendOutcome.resp ⟨s2, p2, d2⟩) ::
            rest) acc stats =
        .err (.fetchError s2)
          { stats with sleepSeconds := stats.sleepSeconds + 60 }) := by
  have hne : s1 ≠ httpOk := by
    intro h; rw [h] at hfail; exact absurd hfail (by norm_num [httpOk])
  constructor
  · intro hok
    have : ¬ 400 ≤ s2 := Nat.not_le.mpr hok
    simp [requestData, sendPage, requestAgain, hne, this]
  · intro hbad
    simp [requestData, sendPage, requestAgain, hne, hbad]

/-- Witness for C2: status 500 then 200 consumes the retry page after one
60-second wait; status 500 then 503 fails fatally with the retry's status. -/
theorem retry_once_policy_witness :
    requestData 1
        ((SendOutcome.resp ⟨500, ⟨([] : List Nat), 0, 0⟩, 2⟩,
          SendOutcome.resp ⟨200, ⟨[5], 1, 1⟩, 3⟩) :: []) [] initStats =
      .ok [5] ⟨3, some (1, 1), 60⟩ ∧
    requestData 1
        ((SendOutcome.resp ⟨500, ⟨([] : List Nat), 0, 0⟩, 2⟩,
          SendOutcome.resp ⟨503, ⟨[5], 1, 1⟩, 3⟩) :: []) [] initStats =
      .err (.fetchError 503) ⟨0, none, 60⟩ := by
  constructor
  · have h := (retry_once_policy 1 500 200 ⟨[], 0, 0⟩ ⟨[5], 1, 1⟩ 2 3 [] []
      initStats (by norm_num)).1 (by norm_num)
    simpa [initStats, fulfilledQuery] using h
  · have h := (retry_once_policy 1 500 503 ⟨[], 0, 0⟩ ⟨[5], 1, 1⟩ 2 3 [] []
      initStats (by norm_num)).2 (by norm_num)
    simpa [initStats] using h

/-- Counterexample for C5: a network-level error on the first send of a page
is not retried — even though the scripted retry outcome is a status-200
response that would have succeeded, the fetch fails immediately with the
propagated network exception, and no 60-second wait is performed
(`sleepSeconds` stays 0). -/
theorem net_error_no_retry_cex :
    requestData 5
        [((SendOutcome.netErr : SendOutcome Nat),
          SendOutcome.resp ⟨200, ⟨[1], 1, 1⟩, 0⟩)] [] initStats =
      .err .netException initStats := rfl

/-- C5 amended: a network-level error on the initial send of a page
propagates immediately and fatally, with no wait and no retry (only an
error HTTP status triggers the wait-and-retry); and a network-level error
during the retry of an HTTP-failed page raises `UnboundLocalError` (the bare
`except` block reads the unassigned local `request`), not the `FetchError`. -/
theorem net_error_propagates {α : Type} (mx : Nat) (a2 : SendOutcome α)
    (rest : List (PageFetch α)) (acc : List α) (stats : FetchStats) :
    requestData mx ((SendOutcome.netErr, a2) :: rest) acc stats =
      .err .netException stats ∧
    (∀ (s1 : Nat) (p1 : Page α) (d1 : Rat), 400 ≤ s1 →
      requestData mx ((SendOutcome.resp ⟨s1, p1, d1⟩, SendOutcome.netErr) ::
          rest) acc stats =
        .err .unboundLocal
          { stats with sleepSeconds := stats.sleepSeconds + 60 }) := by
  constructor
  · simp [requestData, sendPage]
  · intro s1 p1 d1 hfail
    have hne : s1 ≠ httpOk := by
      intro h; rw [h] at hfail; exact absurd hfail (by norm_num [httpOk])
    simp [requestData, sendPage, requestAgain, hne]

/-- Witness for C5's amended statement at a concrete script. -/
theorem net_error_propagates_witness :
    requestData 5
        [((SendOutcome.netErr : SendOutcome Nat),
          SendOutcome.resp ⟨200, ⟨[2], 1, 1⟩, 0⟩)] [] initStats =
      .err .netException initStats ∧
    requestData 5
        [((SendOutcome.resp ⟨500, (⟨[2], 1, 1⟩ : Page Nat), 1⟩ :
            SendOutcome Nat), SendOutcome.netErr)] [] initStats =
      .err .unboundLocal ⟨0, none, 60⟩ := by
  constructor
  · exact (net_error_propagates 5 (SendOutcome.resp ⟨200, ⟨[2], 1, 1⟩, 0⟩)
      [] [] initStats).1
  · have h := (@net_error_propagates Nat 5 SendOutcome.netErr [] []
      initStats).2 500 ⟨[2], 1, 1⟩ 1 (by norm_num)
    simpa [initStats] using h

/-- Stats bookkeeping across a successful run, generalized over the starting
accumulator and stats. -/
theorem requestData_stats {α : Type} :
    ∀ (script : List (PageFetch α)) (mx : Nat) (acc : List α)
      (stats : FetchStats) (items : List α) (stats' : FetchStats),
      requestData mx script acc stats = .ok items stats' →
      ∃ pre suf, script = pre ++ suf ∧
        stats'.requestTime = stats.requestTime +
          (pre.map consumedElapsed).sum ∧
        ∃ pf r, pre.getLast? = some pf ∧ (sendPage pf).1 = .ok r ∧
          stats'.requestSize = some (r.body.endIndex, r.body.totalItems) := by
  intro script
  induction script with
  | nil => intro mx acc stats items stats' h; simp [requestData] at h
  | cons pf rest ih =>
    intro mx acc stats items stats' h
    rw [requestData] at h
    rcases hsp : sendPage pf with ⟨out, slp⟩
    rcases out with e | r
    · rw [hsp] at h
      simp at h
    · rw [hsp] at h
      dsimp only at h
      by_cases hful : fulfilledQuery r.body mx = true
      · rw [if_pos hful] at h
        refine ⟨[pf], rest, rfl, ?_, pf, r, rfl, by rw [hsp], ?_⟩
        · cases h; simp [consumedElapsed, hsp]
        · cases h; rfl
      · rw [if_neg hful] at h
        obtain ⟨pre', suf', hsplit, htime, pf', r', hlast, hsp', hsz⟩ :=
          ih mx (acc ++ r.body.items)
            ⟨stats.requestTime + r.elapsed,
             some (r.body.endIndex, r.body.totalItems),
             stats.sleepSeconds + 60 * slp⟩ items stats' h
        refine ⟨pf :: pre', suf', by rw [hsplit]; rfl, ?_, pf', r', ?_, hsp',
          hsz⟩
        · simp only [htime, List.map_cons, List.sum_cons, consumedElapsed,
            hsp]
          ring
        · cases pre' with
          | nil => simp at hlast
          | cons b l => rw [List.getLast?_cons_cons]; exact hlast

/-- C8 amended: `request_time` and `request_size` start reset per query
instance (0.0 and the integer placeholder), and at a successful termination
`request_time` equals the sum, over the pages processed, of the duration of
the response the loop consumed for that page (the duration of a failed first
attempt that was retried is not counted), while `request_size` is the
`(endIndex, totalItems)` pair of the last consumed response. -/
theorem stats_after_fetch {α : Type} (script : List (PageFetch α)) (mx : Nat)
    (items : List α) (stats' : FetchStats)
    (hrun : requestData mx script [] initStats = .ok items stats') :
    initStats.requestTime = 0 ∧ initStats.requestSize = none ∧
    ∃ pre suf, script = pre ++ suf ∧
      stats'.requestTime = (pre.map consumedElapsed).sum ∧
      ∃ pf r, pre.getLast? = some pf ∧ (sendPage pf).1 = .ok r ∧
        stats'.requestSize = some (r.body.endIndex, r.body.totalItems) := by
  obtain ⟨pre, suf, hsplit, htime, rest⟩ :=
    requestData_stats script mx [] initStats items stats' hrun
  exact ⟨rfl, rfl, pre, suf, hsplit, by simpa [initStats] using htime, rest⟩

/-- Witness for C8's amended statement: one page succeeding on first attempt
with duration 4. -/
theorem stats_after_fetch_witness :
    initStats.requestTime = 0 ∧ initStats.requestSize = none ∧
    ∃ pre suf,
      [((SendOutcome.resp ⟨200, (⟨[9], 1, 1⟩ : Page Nat), 4⟩ :
          SendOutcome Nat), SendOutcome.netErr)] = pre ++ suf ∧
      (⟨4, some (1, 1), 0⟩ : FetchStats).requestTime =
        (pre.map consumedElapsed).sum ∧
      ∃ pf r, pre.getLast? = some pf ∧ (sendPage pf).1 = .ok r ∧
        (⟨4, some (1, 1), 0⟩ : FetchStats).requestSize =
          some (r.body.endIndex, r.body.totalItems) :=
  stats_after_fetch
    [((SendOutcome.resp ⟨200, (⟨[9], 1, 1⟩ : Page Nat), 4⟩ :
        SendOutcome Nat), SendOutcome.netErr)] 7 [9] ⟨4, some (1, 1), 0⟩
    (by norm_num [requestData, sendPage, requestAgain, httpOk, fulfilledQuery,
      initStats])

/-- Counterexample for C8: a fetch whose single page needed a retry — first
attempt status 500 with duration 5, retry status 200 with duration 3. Both
requests were issued, so the claim predicts an accumulated elapsed of 8, but
`request_time` ends at 3: the failed attempt's duration is dropped. -/
theorem stats_after_fetch_cex :
    requestData 10
        [((SendOutcome.resp ⟨500, (⟨[], 0, 0⟩ : Page Nat), 5⟩ :
            SendOutcome Nat), SendOutcome.resp ⟨200, ⟨[7], 1, 1⟩, 3⟩)]
        [] initStats = .ok [7] ⟨3, some (1, 1), 60⟩ ∧
    (3 : Rat) ≠ 5 + 3 := by
  refine ⟨by norm_num [requestData, sendPage, requestAgain, httpOk,
    fulfilledQuery, initStats], by norm_num⟩

/-- C4 (code bug): with string keywords, a non-integer `year_min` and an
integer `year_max`, validation succeeds — no `TypeError` is raised and
construction proceeds to issue requests, although the claim (and the
validator's own error message, "Years must be of type integer.") requires
rejection when either year bound is not an integer. The `and` joining the
two `not isinstance` checks only rejects when both bounds are non-integers. -/
theorem valid_parameters_year_bug :
    validParameters [.str "drought"] (.str "1900") (.int 1900) = .ok true ∧
    validParameters [.str "drought"] (.str "1900") (.str "1900") =
      .error (.typeError "Years must be of type integer.") := by
  constructor <;> rfl

/-- Dropping the head and dropping the last element commute. -/
theorem dropLast_drop_one {α : Type} (l : List α) :
    (l.drop 1).dropLast = l.dropLast.drop 1 := by
  match l with
  | [] => rfl
  | [a] => rfl
  | a :: b :: t => simp

/-- The period is not a word character. -/
theorem wordChar_dot : wordChar '.' = false := rfl

/-- Wordness at an in-range-or-one-past position is unchanged by appending
the terminating period: the position either still sees the same character,
or sees the appended period, which is as non-word as the out-of-range
default. -/
theorem wordAt_append_dot (p : List Char) (q : Nat) (h : q ≤ p.length) :
    wordAt (p ++ ['.']) q = wordAt p q := by
  unfold wordAt
  rcases Nat.lt_or_eq_of_le h with h' | h'
  · simp [List.getD_eq_getElem?_getD, List.getElem?_append_left h']
  · subst h'
    simp [List.getD_eq_getElem?_getD, List.getElem?_concat_length,
      List.getElem?_eq_none (Nat.le_refl _)]

/-- Out-of-range positions are not word characters. -/
theorem wordAt_out (s : List Char) (q : Nat) (h : s.length ≤ q) :
    wordAt s q = false := by
  unfold wordAt
  simp [List.getD_eq_getElem?_getD, List.getElem?_eq_none h, wordChar_dot]

/-- Word boundaries at positions up to the run's length are unchanged by
appending the terminating period. -/
theorem boundaryAt_append_dot (p : List Char) (q : Nat) (h : q ≤ p.length) :
    boundaryAt (p ++ ['.']) q = boundaryAt p q := by
  unfold boundaryAt
  rw [wordAt_append_dot p q h,
    wordAt_append_dot p (q - 1) (le_trans (Nat.sub_le q 1) h)]

/-- There is no word boundary just past the appended period: both the period
and the out-of-range position after it are non-word. -/
theorem boundaryAt_dot_end (p : List Char) :
    boundaryAt (p ++ ['.']) (p.length + 1) = false := by
  unfold boundaryAt
  have h1 : wordAt (p ++ ['.']) p.length = false := by
    unfold wordAt
    simp [List.getD_eq_getElem?_getD, List.getElem?_concat_length,
      wordChar_dot]
  have h2 : wordAt (p ++ ['.']) (p.length + 1) = false :=
    wordAt_out _ _ (by simp)
  simp [h1, h2]

/-- A keyword match fits inside the run: its length is bounded by the
characters remaining from its start position. -/
theorem kwMatch_len {s kw : List Char} {i : Nat}
    (h : kwMatchAt s kw i = true) : kw.length ≤ s.length - i := by
  unfold kwMatchAt at h
  simp only [Bool.and_eq_true, beq_iff_eq] at h
  obtain ⟨⟨hseg, _⟩, _⟩ := h
  have hl := congrArg List.length hseg
  simp only [List.length_map, List.length_take, List.length_drop] at hl
  exact min_eq_left_iff.mp hl

/-- The matched segment is unchanged by appending the terminating period
when the match fits inside the run. -/
theorem segment_append_dot (p kw : List Char) (i : Nat) (hi : i ≤ p.length)
    (hlen : kw.length ≤ p.length - i) :
    ((p ++ ['.']).drop i).take kw.length = (p.drop i).take kw.length := by
  rw [List.drop_append_of_le_length hi,
    List.take_append_of_le_length (by simpa using hlen)]

/-- Appending the terminating period to a run does not change whether a
whole-word keyword occurrence exists in it: a keyword cannot overlap the
period (no word boundary sits past it), and in-run boundaries agree because
the out-of-range default and the period are equally non-word. -/
theorem containsAny_append_dot (kws : List (List Char)) (p : List Char) :
    containsAnyKeyword kws (p ++ ['.']) = containsAnyKeyword kws p := by
  rw [Bool.eq_iff_iff]
  simp only [containsAnyKeyword, List.any_eq_true, List.mem_range,
    List.length_append, List.length_singleton]
  constructor
  · rintro ⟨kw, hkw, i, hi, hm⟩
    have hlen : kw.length ≤ p.length + 1 - i := by
      have := kwMatch_len hm
      simpa using this
    by_cases hfit : i + kw.length ≤ p.length
    · refine ⟨kw, hkw, i, by omega, ?_⟩
      unfold kwMatchAt at hm ⊢
      simp only [Bool.and_eq_true] at hm ⊢
      obtain ⟨⟨hseg, hb1⟩, hb2⟩ := hm
      rw [segment_append_dot p kw i (by omega) (by omega)] at hseg
      rw [boundaryAt_append_dot p i (by omega)] at hb1
      rw [boundaryAt_append_dot p (i + kw.length) hfit] at hb2
      exact ⟨⟨hseg, hb1⟩, hb2⟩
    · exfalso
      have hend : i + kw.length = p.length + 1 := by omega
      unfold kwMatchAt at hm
      simp only [Bool.and_eq_true] at hm
      rw [hend, boundaryAt_dot_end] at hm
      exact Bool.false_ne_true hm.2
  · rintro ⟨kw, hkw, i, hi, hm⟩
    have hlen := kwMatch_len hm
    have hi' : i ≤ p.length := by omega
    refine ⟨kw, hkw, i, by omega, ?_⟩
    unfold kwMatchAt at hm ⊢
    simp only [Bool.and_eq_true] at hm ⊢
    obtain ⟨⟨hseg, hb1⟩, hb2⟩ := hm
    rw [segment_append_dot p kw i hi' hlen]
    rw [boundaryAt_append_dot p i hi']
    rw [boundaryAt_append_dot p (i + kw.length) (by omega)]
    exact ⟨⟨hseg, hb1⟩, hb2⟩

/-- Unfolding `intercalate` over two leading chunks. -/
theorem intercalate_cons₂ {α : Type} (sep a b : List α) (t : List (List α)) :
    List.intercalate sep (a :: b :: t) =
      a ++ sep ++ List.intercalate sep (b :: t) := by
  simp [List.intercalate, List.intersperse_cons_cons]

/-- A chunk that is neither first nor last in an intercalation is surrounded
by separators. -/
theorem intercalate_surround {α : Type} (sep : List α) :
    ∀ (pre : List (List α)) (l0 p : List α) (post : List (List α)),
      post ≠ [] →
      ∃ l r, List.intercalate sep (l0 :: (pre ++ p :: post)) =
        l ++ sep ++ p ++ sep ++ r := by
  intro pre
  induction pre with
  | nil =>
    intro l0 p post hpost
    cases post with
    | nil => exact absurd rfl hpost
    | cons q post' =>
      refine ⟨l0, List.intercalate sep (q :: post'), ?_⟩
      rw [List.nil_append, intercalate_cons₂, intercalate_cons₂]
      simp [List.append_assoc]
  | cons a pre' ih =>
    intro l0 p post hpost
    obtain ⟨l', r, hr⟩ := ih a p post hpost
    refine ⟨l0 ++ sep ++ l', r, ?_⟩
    rw [List.cons_append, intercalate_cons₂, hr]
    simp [List.append_assoc]

/-- Structure of a member of the extraction result: it is an interior chunk
of the period-split of the text (not the first chunk, not the trailing one),
with the period appended. -/
theorem extract_mem_decomp {text s : List Char} {kws : List (List Char)}
    (h : s ∈ extractKeySentences text kws) :
    ∃ (l0 p : List Char) (pre post : List (List Char)),
      text.splitOn '.' = l0 :: (pre ++ p :: post) ∧ post ≠ [] ∧
      s = p ++ ['.'] := by
  unfold extractKeySentences at h
  simp only [List.mem_map, List.mem_filter] at h
  obtain ⟨p, ⟨hp, _⟩, rfl⟩ := h
  rcases hsplit : text.splitOn '.' with _ | ⟨l0, tl⟩
  · rw [hsplit] at hp; simp at hp
  · rw [hsplit] at hp
    simp only [List.drop_succ_cons, List.drop_zero] at hp
    have htl : tl ≠ [] := by
      intro hnil; rw [hnil] at hp; simp at hp
    obtain ⟨pre, post', hdec⟩ := List.append_of_mem hp
    obtain ⟨g, hg⟩ : ∃ g, tl = tl.dropLast ++ [g] :=
      ⟨tl.getLast htl, (List.dropLast_append_getLast htl).symm⟩
    refine ⟨l0, p, pre, post' ++ [g], ?_, by simp, rfl⟩
    rw [hg, hdec]
    simp

/-- C10: every sentence the extractor selects is preceded by a period
character in the original text; consequently a whole-word, case-insensitive
keyword occurrence confined to the text's first sentence selects nothing,
even when that sentence ends in a period — witnessed on
`"Drought hit the crops."` with keyword `"drought"`, whose first (and only)
sentence does contain a whole-word match. -/
theorem selected_preceded_by_period :
    (∀ (text : List Char) (kws : List (List Char)) (s : List Char),
        s ∈ extractKeySentences text kws →
        ∃ l r, text = l ++ '.' :: (s ++ r)) ∧
    extractKeySentences "Drought hit the crops.".toList
      ["drought".toList] = [] ∧
    containsAnyKeyword ["drought".toList]
      "Drought hit the crops.".toList = true := by
  refine ⟨?_, by decide, by decide⟩
  intro text kws s hs
  obtain ⟨l0, p, pre, post, hsplit, hpost, rfl⟩ := extract_mem_decomp hs
  obtain ⟨l, r, hr⟩ := intercalate_surround ['.'] pre l0 p post hpost
  refine ⟨l, r, ?_⟩
  have hx : ['.'].intercalate (text.splitOn '.') = text :=
    List.intercalate_splitOn text '.'
  rw [← hx, hsplit, hr]
  simp

/-- C3 (amended): on the spec's example the extractor returns exactly
`[" Crops failed due to drought."]`; and in general the selected sentences
are exactly the period-terminated sentences of the text other than the
first one that contain a whole-word, case-insensitive match of some query
keyword (the first sentence is never selected, because the pattern's
lookbehind demands a preceding period). -/
theorem extraction_example_and_rule :
    extractKeySentences
        "Rain fell. Crops failed due to drought. Markets rallied.".toList
        ["drought".toList] = [" Crops failed due to drought.".toList] ∧
    ∀ (text : List Char) (kws : List (List Char)),
      extractKeySentences text kws =
        ((specSentences text).drop 1).filter (containsAnyKeyword kws) := by
  refine ⟨by decide, ?_⟩
  intro text kws
  unfold extractKeySentences specSentences
  rw [← List.map_drop, dropLast_drop_one, List.filter_map]
  exact congrArg _
    (List.filter_congr fun x _ => (containsAny_append_dot kws x).symm)

/-- Counterexample for C3's general rule: a single-sentence text whose only
sentence ends in a period and contains a whole-word, case-insensitive
keyword match, yet the extractor selects nothing — the spec-modelled
selector (sentence selected iff it contains a match) selects it. -/
theorem extraction_iff_cex :
    extractKeySentences "Crops failed due to drought.".toList
      ["drought".toList] = [] ∧
    specSelectedSentences ["drought".toList]
      "Crops failed due to drought.".toList =
      ["Crops failed due to drought.".toList] := by
  exact ⟨by decide, by decide⟩

/-- Witness for C10 at a concrete text: a selection really is preceded by a
period in the text. -/
theorem selected_preceded_by_period_witness :
    ∃ l r, "a. drought b.".toList =
      l ++ '.' :: (" drought b.".toList ++ r) :=
  selected_preceded_by_period.1 "a. drought b.".toList ["drought".toList]
    " drought b.".toList (by decide)

/-- Counterexample for C9: an input in which the second item is missing the
required `date` field, yet assembly succeeds — the column exists in the
union of keys thanks to the first item, and the second item's missing cell
becomes `NaT` rather than raising `SchemaError`. -/
theorem dataset_partial_missing_cex :
    buildDataset [itemFull, itemNoDate] = .ok [rowFull, rowNoDate] := by
  rfl

/-- C9 (amended): assembly fails with `SchemaError` when a required column
is missing from every item (an item individually missing a field that other
items supply yields a missing value instead); an unparseable date string
fails with `DateParseError` carrying it; and well-formed items are assembled
with the fixed column selection and a parsed calendar date. -/
theorem dataset_schema_and_dates :
    (∀ items : List RawItem,
      (∃ c ∈ requiredColumns, ∀ it ∈ items, ¬ c ∈ it.map Prod.fst) →
      buildDataset items = .error .schemaError) ∧
    buildDataset [itemBadDate] =
      .error (.dateParseError "not-a-date".toList) ∧
    buildDataset [itemFull] = .ok [rowFull] := by
  refine ⟨?_, by rfl, by rfl⟩
  rintro items ⟨c, hc, hnone⟩
  unfold buildDataset
  rw [if_neg]
  intro hall
  rw [List.all_eq_true] at hall
  have h1 := hall c hc
  rw [List.contains_iff_exists_mem_beq] at h1
  obtain ⟨c', hc', hbeq⟩ := h1
  rw [beq_iff_eq] at hbeq
  subst hbeq
  simp only [colUnion, List.mem_flatten, List.mem_map] at hc'
  obtain ⟨l, ⟨it, hit, rfl⟩, hcl⟩ := hc'
  exact hnone it hit hcl

/-- Witness for C9's amended statement: a single item with no `date` key at
all makes the whole assembly fail with `SchemaError`. -/
theorem dataset_schema_and_dates_witness :
    buildDataset [[("state", "IL".toList)]] = .error .schemaError :=
  dataset_schema_and_dates.1 [[("state", "IL".toList)]]
    ⟨"date", by decide, by decide⟩

/-- C6: a record whose `ocr_eng` text is the empty string yields an empty
`key_sentences` sequence, and — provided the external scorer is neutral on
empty input, as `TextBlob("").sentiment` is documented to be — the neutral
score (polarity 0, subjectivity 0); no error is raised. -/
theorem empty_text_neutral (score : List Char → Rat × Rat)
    (kws : List (List Char)) (row : NewsRow)
    (hscore : score [] = (0, 0)) (hempty : row.ocrEng = .str []) :
    buildSentiment score kws [row] = [⟨row, [], 0, 0⟩] := by
  have hext : extractKeySentences [] kws = [] := rfl
  simp [buildSentiment, hempty, strOfCell, hext, hscore, List.intercalate]

/-- Witness for C6 with the neutral constant scorer on a concrete empty-text
row. -/
theorem empty_text_neutral_witness :
    buildSentiment (fun _ => (0, 0)) ["drought".toList]
      [⟨none, .nan, .nan, .nan, .nan, .str []⟩] =
      [⟨⟨none, .nan, .nan, .nan, .nan, .str []⟩, [], 0, 0⟩] :=
  empty_text_neutral (fun _ => (0, 0)) ["drought".toList]
    ⟨none, .nan, .nan, .nan, .nan, .str []⟩ rfl rfl

/-- Successful assembly produces exactly one row per raw item. -/
theorem rowsOf_ok_length :
    ∀ (items : List RawItem) (rows : List NewsRow),
      rowsOf items = .ok rows → rows.length = items.length := by
  intro items
  induction items with
  | nil =>
    intro rows h
    simp only [rowsOf] at h
    cases h
    rfl
  | cons it rest ih =>
    intro rows h
    rw [rowsOf] at h
    rcases hr : rowOf it with e | r <;> rw [hr] at h
    · cases h
    · rcases hrs : rowsOf rest with e | rs <;> rw [hrs] at h
      · cases h
      · cases h
        simp [ih rs hrs]

/-- Projecting the underlying row out of each enriched row recovers the
input rows. -/
theorem buildSentiment_proj (score : List Char → Rat × Rat)
    (kws : List (List Char)) :
    ∀ rows : List NewsRow,
      (buildSentiment score kws rows).map EnrichedRow.row = rows
  | [] => rfl
  | r :: t => by
    have ih := buildSentiment_proj score kws t
    calc (buildSentiment score kws (r :: t)).map EnrichedRow.row
        = r :: (buildSentiment score kws t).map EnrichedRow.row := rfl
      _ = r :: t := by rw [ih]

/-- C7: enrichment maps each assembled row to exactly one enriched row, so
its output length is ≤ (indeed =) the number of raw records fetched, and
projecting the underlying row back out returns the assembled rows in their
original order — no reordering. -/
theorem enrichment_preserves_order (score : List Char → Rat × Rat)
    (kws : List (List Char)) (items : List RawItem) (rows : List NewsRow)
    (hok : buildDataset items = .ok rows) :
    (buildSentiment score kws rows).length ≤ items.length ∧
    (buildSentiment score kws rows).map EnrichedRow.row = rows := by
  have hrows : rows.length = items.length := by
    unfold buildDataset at hok
    by_cases hcond :
        (requiredColumns.all fun c => (colUnion items).contains c) = true
    · rw [if_pos hcond] at hok
      exact rowsOf_ok_length items rows hok
    · rw [if_neg hcond] at hok
      cases hok
  refine ⟨?_, buildSentiment_proj score kws rows⟩
  simp [buildSentiment, hrows]

/-- Witness for C7 on a concrete one-item dataset. -/
theorem enrichment_preserves_order_witness :
    (buildSentiment (fun _ => (0, 0)) ["drought".toList] [rowFull]).length ≤
      ([itemFull] : List RawItem).length ∧
    (buildSentiment (fun _ => (0, 0)) ["drought".toList] [rowFull]).map
      EnrichedRow.row = [rowFull] :=
  enrichment_preserves_order (fun _ => (0, 0)) ["drought".toList]
    [itemFull] [rowFull] (by rfl)

end NewsSentiment
